import Mathlib

/-!
Verification of the UTS #46 IDNA processing interface (`source/common/unicode/idna.h`).

Strings are modelled as lists of Unicode code points (`List Nat`); option and
error bit sets are modelled as `Nat` bit sets with the bit values of the
source header.  The `IDNAErrors` container is translated directly from the
inline C++ in `idna.h`.  The processing pipeline itself (mapping,
normalization, label splitting, punycode, validation, the four public
operations) is declared in the header but implemented elsewhere; those parts
are modelled from the specification, as marked on each definition.
-/

/-- Option bit from `idna.h`: allow unassigned code points (ignored by UTS46). -/
def UIDNA_ALLOW_UNASSIGNED : Nat := 1
/-- Option bit from `idna.h`: check STD3 ASCII rules (LDH restriction, length limits). -/
def UIDNA_USE_STD3_RULES : Nat := 2
/-- Option bit from `idna.h`: check the BiDi rules. -/
def UIDNA_CHECK_BIDI : Nat := 4
/-- Option bit from `idna.h`: check the CONTEXTJ rules. -/
def UIDNA_CHECK_CONTEXTJ : Nat := 8
/-- Option bit from `idna.h`: nontransitional processing in ToASCII. -/
def UIDNA_NONTRANSITIONAL_TO_ASCII : Nat := 0x10

/-- Error bit from `idna.h`: a non-final label (or the whole domain name) is empty. -/
def UIDNA_ERROR_EMPTY_LABEL : Nat := 1
/-- Error bit from `idna.h`: a label is longer than 63 bytes (ToASCII, STD3 only). -/
def UIDNA_ERROR_LABEL_TOO_LONG : Nat := 2
/-- Error bit from `idna.h`: a domain name is longer than 255 bytes (ToASCII, STD3 only). -/
def UIDNA_ERROR_DOMAIN_NAME_TOO_LONG : Nat := 4
/-- Error bit from `idna.h`: a label starts with a hyphen-minus. -/
def UIDNA_ERROR_LEADING_HYPHEN : Nat := 8
/-- Error bit from `idna.h`: a label ends with a hyphen-minus. -/
def UIDNA_ERROR_TRAILING_HYPHEN : Nat := 0x10
/-- Error bit from `idna.h`: a label has hyphen-minus in the third and fourth positions. -/
def UIDNA_ERROR_HYPHEN_3_4 : Nat := 0x20
/-- Error bit from `idna.h`: a label starts with a combining mark. -/
def UIDNA_ERROR_LEADING_COMBINING_MARK : Nat := 0x40
/-- Error bit from `idna.h`: a label or domain name contains disallowed characters. -/
def UIDNA_ERROR_DISALLOWED : Nat := 0x80
/-- Error bit from `idna.h`: a label starts with "xn--" but has invalid Punycode. -/
def UIDNA_ERROR_PUNYCODE : Nat := 0x100
/-- Error bit from `idna.h`: a label contains a dot (full stop). -/
def UIDNA_ERROR_LABEL_HAS_DOT : Nat := 0x200
/-- Error bit from `idna.h`: an ACE label is not valid. -/
def UIDNA_ERROR_INVALID_ACE_LABEL : Nat := 0x400
/-- Error bit from `idna.h`: a label does not meet the BiDi requirements. -/
def UIDNA_ERROR_BIDI : Nat := 0x800
/-- Error bit from `idna.h`: a label does not meet the CONTEXTJ requirements. -/
def UIDNA_ERROR_CONTEXTJ : Nat := 0x1000

/-- Output container for IDNA processing errors, translated from `idna.h`
(`class IDNAErrors`, a `uint32_t` bit set). -/
structure IDNAErrors where
  errors : Nat

/-- Translated from `idna.h`: `IDNAErrors() : errors(0)`, the stack constructor. -/
def IDNAErrors.init : IDNAErrors := ⟨0⟩

/-- Translated from `idna.h`: `UBool hasErrors() const \x7b return errors!=0; \x7d`. -/
def IDNAErrors.hasErrors (e : IDNAErrors) : Bool := e.errors != 0

/-- Translated from `idna.h`: `uint32_t getErrors() const \x7b return errors; \x7d`. -/
def IDNAErrors.getErrors (e : IDNAErrors) : Nat := e.errors

/-- Translated from `idna.h`: `void reset() \x7b errors=0; \x7d` (private, used by UTS46). -/
def IDNAErrors.reset (_e : IDNAErrors) : IDNAErrors := ⟨0⟩

/-- Modelled from the spec: the error accumulator contract of section 4.1,
`record(flag)` sets one bit and never clears a previously set bit.  The
recording member itself is private to the missing `UTS46` implementation. -/
def IDNAErrors.recordError (e : IDNAErrors) (flag : Nat) : IDNAErrors := ⟨e.errors ||| flag⟩

/-- Option accessor: `UIDNA_USE_STD3_RULES` (= 2, bit 1) is set. -/
def uts46UseSTD3 (options : Nat) : Bool := options.testBit 1
/-- Option accessor: `UIDNA_CHECK_BIDI` (= 4, bit 2) is set. -/
def uts46CheckBidi (options : Nat) : Bool := options.testBit 2
/-- Option accessor: `UIDNA_CHECK_CONTEXTJ` (= 8, bit 3) is set. -/
def uts46CheckContextJ (options : Nat) : Bool := options.testBit 3
/-- Option accessor: `UIDNA_NONTRANSITIONAL_TO_ASCII` (= 0x10, bit 4) is set. -/
def uts46Nontransitional (options : Nat) : Bool := options.testBit 4

/-- The two UTS46 mapping modes (spec section 4.2). -/
inductive MapMode where
  | trans
  | nontrans
deriving DecidableEq

/-- A code point disposition in the UTS46 mapping table (spec section 6,
`classify(codepoint)`). -/
inductive CharClass where
  | valid
  | mapped (repl : List Nat)
  | deviation (repl : List Nat)
  | disallowed
deriving DecidableEq

/-- ASCII letter/digit/hyphen (LDH) test. -/
def isLDH (c : Nat) : Bool :=
  decide (c = 0x2D ∨ (0x30 ≤ c ∧ c ≤ 0x39) ∨ (0x61 ≤ c ∧ c ≤ 0x7A))

/-- Modelled from the spec: the external character classification collaborator
`classify(codepoint) -> \x7bvalid|mapped|deviation|disallowed\x7d` (sections 2, 6).
This concrete table realizes the dispositions the spec names: LDH and dot are
valid, ASCII uppercase letters are mapped to lowercase, U+00DF is a deviation
character mapping to "ss", ZWNJ/ZWJ are deviation characters mapping to
nothing, the replacement character / surrogates / out-of-range code points
are disallowed, and everything else passes through as valid. -/
def classify (c : Nat) : CharClass :=
  if c = 0x2E ∨ isLDH c then .valid
  else if 0x41 ≤ c ∧ c ≤ 0x5A then .mapped [c + 0x20]
  else if c = 0xDF then .deviation [0x73, 0x73]
  else if c = 0x200C ∨ c = 0x200D then .deviation []
  else if c < 0x80 then .valid
  else if c = 0xFFFD ∨ (0xD800 ≤ c ∧ c ≤ 0xDFFF) ∨ 0x110000 ≤ c then .disallowed
  else .valid

/-- ASCII character outside letters/digits/hyphen/dot (spec section 4.2). -/
def asciiNonLDH (c : Nat) : Bool :=
  decide (c < 0x80) && !(decide (c = 0x2E) || isLDH c)

/-- Modelled from the spec: the per-code-point character mapper of section 4.2
(the string produced for one input code point).  Valid code points pass
through, mapped ones are replaced, deviation ones are mapped only in
transitional mode, disallowed ones become U+FFFD; ASCII outside LDH+dot is
replaced by U+FFFD only under STD3 rules. -/
def mapCharStr (std3 : Bool) (mode : MapMode) (c : Nat) : List Nat :=
  match classify c with
  | .valid => if std3 ∧ asciiNonLDH c then [0xFFFD] else [c]
  | .mapped r => r
  | .deviation r =>
    match mode with
    | .trans => r
    | .nontrans => [c]
  | .disallowed => [0xFFFD]

/-- Modelled from the spec: whether mapping one code point records a
DISALLOWED error (section 4.2). -/
def mapCharBad (std3 : Bool) (c : Nat) : Bool :=
  match classify c with
  | .valid => std3 && asciiNonLDH c
  | .mapped _ => false
  | .deviation _ => false
  | .disallowed => true

/-- Modelled from the spec: the character mapper applied to a whole string
(section 4.2). -/
def mapOut (std3 : Bool) (mode : MapMode) : List Nat → List Nat
  | [] => []
  | c :: r => mapCharStr std3 mode c ++ mapOut std3 mode r

/-- Modelled from the spec: whether mapping a string hits any disallowed
code point (section 4.2). -/
def mapHasDisallowed (std3 : Bool) : List Nat → Bool
  | [] => false
  | c :: r => mapCharBad std3 c || mapHasDisallowed std3 r

/-- Modelled from the spec: the external NFC normalizer collaborator
`normalize(string) -> string` (sections 2, 6).  This concrete instance
composes the canonical pair U+0061 U+0301 into U+00E1 and leaves everything
else unchanged; it is idempotent like NFC. -/
def nfcNormalize : List Nat → List Nat
  | [] => []
  | [c] => [c]
  | a :: b :: rest =>
    if a = 0x61 ∧ b = 0x301 then 0xE1 :: nfcNormalize rest
    else a :: nfcNormalize (b :: rest)

/-- Modelled from the spec: the map-then-nfcNormalize stage shared by every
operation (section 4.5, steps "Map ... then Normalize"). -/
def uts46MapNorm (std3 : Bool) (mode : MapMode) (l : List Nat) : List Nat :=
  nfcNormalize (mapOut std3 mode l)

/-- Modelled from the spec: label separator characters, full stop and its
fullwidth/halfwidth/ideographic variants (section 2, component 4). -/
def isSep (c : Nat) : Bool :=
  decide (c = 0x2E ∨ c = 0x3002 ∨ c = 0xFF0E ∨ c = 0xFF61)

/-- Modelled from the spec: segmentation of a domain name into labels at
separator characters (section 4.5). -/
def splitDots : List Nat → List (List Nat)
  | [] => [[]]
  | c :: rest =>
    if isSep c then [] :: splitDots rest
    else
      match splitDots rest with
      | [] => [[c]]
      | p :: ps => (c :: p) :: ps

/-- Modelled from the spec: rejoining processed labels with ASCII full
stops (section 4.5). -/
def joinDots : List (List Nat) → List Nat
  | [] => []
  | [p] => p
  | p :: q :: r => p ++ 0x2E :: joinDots (q :: r)

/-- The four-character ACE marker "xn--" (spec glossary). -/
def aceMarker : List Nat := [0x78, 0x6E, 0x2D, 0x2D]

/-- Base-26 digits (most significant first) of a code point, with explicit
fuel for structural recursion; the fuel is always instantiated with the
number itself, which bounds the digit count. -/
def cpDigitsAux : Nat → Nat → List Nat
  | 0, _ => []
  | f + 1, n => if n = 0 then [] else cpDigitsAux f (n / 26) ++ [n % 26]

/-- Modelled from the spec: the reversible ACE body encoding of one code
point used by the punycode codec component (section 4.3).  A code point is
written as its base-26 digits (letters a-z) followed by the terminator
digit zero, a prefix-free reversible scheme over the LDH alphabet. -/
def encodeCp (n : Nat) : List Nat :=
  (cpDigitsAux n n).map (fun d => 0x61 + d) ++ [0x30]

/-- Modelled from the spec: the punycode encoder, a reversible encoder from a
code point sequence to an ASCII ACE label body (section 4.3). -/
def punyEncode : List Nat → List Nat
  | [] => []
  | c :: r => encodeCp c ++ punyEncode r

/-- Decoder loop for the ACE body codec: letters accumulate a value, the
terminator emits it, anything else is a decode failure. -/
def pdAux : List Nat → Nat → Option (List Nat)
  | [], acc => if acc = 0 then some [] else none
  | c :: rest, acc =>
    if c = 0x30 then (pdAux rest 0).map (fun ds => acc :: ds)
    else if 0x61 ≤ c ∧ c ≤ 0x7A then pdAux rest (acc * 26 + (c - 0x61))
    else none

/-- Modelled from the spec: the punycode decoder, which either recovers the
code point sequence or fails on an invalid ACE body (section 4.3). -/
def punyDecode (body : List Nat) : Option (List Nat) :=
  pdAux body 0

/-- Modelled from the spec: a genuine ACE label, one that starts with "xn--",
whose body decodes, and whose decoded form round-trips through
re-mapping/re-normalizing/re-encoding to the same ACE form (sections 4.3
and 4.4, the HYPHEN_3_4 exemption). -/
def genuineACE (std3 : Bool) (l : List Nat) : Bool :=
  if l.take 4 = aceMarker then
    match punyDecode (l.drop 4) with
    | some d => decide (punyEncode (uts46MapNorm std3 .nontrans d) = l.drop 4)
    | none => false
  else false

/-- Combining mark test for the LEADING_COMBINING_MARK check. -/
def isCombining (c : Nat) : Bool := decide (0x300 ≤ c ∧ c ≤ 0x36F)

/-- Whether a label starts with a combining mark. -/
def headCombining : List Nat → Bool
  | [] => false
  | c :: _ => isCombining c

/-- Right-to-left character test for the minimal BiDi rule model. -/
def isRTLChar (c : Nat) : Bool := decide (0x5D0 ≤ c ∧ c ≤ 0x5EA)

/-- Left-to-right letter test for the minimal BiDi rule model. -/
def isLTRChar (c : Nat) : Bool := decide (0x61 ≤ c ∧ c ≤ 0x7A)

/-- Modelled from the spec: the externally specified RFC 5893 BiDi rule,
consumed as a rule set (section 9, open question); this minimal instance
rejects labels mixing right-to-left and left-to-right characters. -/
def bidiViolation (l : List Nat) : Bool :=
  l.any isRTLChar && l.any isLTRChar

/-- Joiner character test (ZWNJ/ZWJ) for the CONTEXTJ rule. -/
def isJoiner (c : Nat) : Bool := decide (c = 0x200C ∨ c = 0x200D)

/-- Scan for a joiner not preceded by a virama, given the previous code point. -/
def ctxjAux : Nat → List Nat → Bool
  | _, [] => false
  | prev, c :: r => (isJoiner c && !(prev == 0x94D)) || ctxjAux c r

/-- Modelled from the spec: the externally specified RFC 5892 CONTEXTJ rule,
consumed as a rule set (section 9, open question); this minimal instance
rejects a joiner that is not immediately preceded by a virama. -/
def ctxjViolation : List Nat → Bool
  | [] => false
  | c :: r => isJoiner c || ctxjAux c r

/-- Modelled from the spec: the label validator of section 4.4.  It receives
the label's code point sequence `uni` and its ASCII/ACE rendering `rend`;
hyphen, combining-mark, BiDi and CONTEXTJ checks apply to the code point
sequence, the 63-byte length check applies to the rendering and only in
ToASCII operations under STD3 rules.  All checks run unconditionally and the
flags are combined additively, never short-circuited. -/
def validateLabel (options : Nat) (isToASCII : Bool) (uni rend : List Nat) : Nat :=
  (if uni.head? = some 0x2D then UIDNA_ERROR_LEADING_HYPHEN else 0) |||
  (if uni.getLast? = some 0x2D then UIDNA_ERROR_TRAILING_HYPHEN else 0) |||
  (if (uni[2]? = some 0x2D ∧ uni[3]? = some 0x2D) ∧
      ¬ genuineACE (uts46UseSTD3 options) uni = true then UIDNA_ERROR_HYPHEN_3_4 else 0) |||
  (if headCombining uni then UIDNA_ERROR_LEADING_COMBINING_MARK else 0) |||
  (if isToASCII ∧ uts46UseSTD3 options ∧ rend.length > 63 then UIDNA_ERROR_LABEL_TOO_LONG else 0) |||
  (if uts46CheckBidi options ∧ bidiViolation uni then UIDNA_ERROR_BIDI else 0) |||
  (if uts46CheckContextJ options ∧ ctxjViolation uni then UIDNA_ERROR_CONTEXTJ else 0)

/-- The mapping mode used by ToASCII operations: transitional unless
`UIDNA_NONTRANSITIONAL_TO_ASCII` is set (`idna.h` documentation and spec
section 4.5). -/
def toASCIIMapMode (options : Nat) : MapMode :=
  if uts46Nontransitional options then .nontrans else .trans

/-- Modelled from the spec: the per-label ToASCII pipeline of section 4.5:
map (in the ToASCII mode) and nfcNormalize; emit pure ASCII as is, otherwise
punycode-encode with the "xn--" marker; validate; on errors the output is
still populated (best effort). -/
def labelToASCIIImpl (options : Nat) (label : List Nat) : List Nat × Nat :=
  let m1 := uts46MapNorm (uts46UseSTD3 options) (toASCIIMapMode options) label
  let rend := if m1.all (fun c => decide (c < 0x80)) then m1 else aceMarker ++ punyEncode m1
  (rend,
    (if mapHasDisallowed (uts46UseSTD3 options) label then UIDNA_ERROR_DISALLOWED else 0) |||
    validateLabel options true m1 rend)

/-- Modelled from the spec: the per-label ToUnicode pipeline of section 4.5:
if the label starts with "xn--", punycode-decode the remainder — on decode
failure or a failed round-trip the original label text is the output and
INVALID_ACE_LABEL is recorded (section 4.3); otherwise map (always
nontransitional) and nfcNormalize, validate, and always return the best
available text. -/
def labelToUnicodeImpl (options : Nat) (label : List Nat) : List Nat × Nat :=
  if label.take 4 = aceMarker then
    match punyDecode (label.drop 4) with
    | none => (label, UIDNA_ERROR_PUNYCODE ||| UIDNA_ERROR_INVALID_ACE_LABEL)
    | some d =>
      let m := uts46MapNorm (uts46UseSTD3 options) .nontrans d
      if punyEncode m = label.drop 4 then
        (m,
          (if mapHasDisallowed (uts46UseSTD3 options) d then UIDNA_ERROR_DISALLOWED else 0) |||
          (if d.any isSep then UIDNA_ERROR_LABEL_HAS_DOT else 0) |||
          validateLabel options false m m)
      else (label, UIDNA_ERROR_INVALID_ACE_LABEL)
  else
    let m := uts46MapNorm (uts46UseSTD3 options) .nontrans label
    (m,
      (if mapHasDisallowed (uts46UseSTD3 options) label then UIDNA_ERROR_DISALLOWED else 0) |||
      validateLabel options false m m)

/-- Result of a public IDNA operation: the destination string and the error
bit set, matching the `(dest, errors)` out-parameters of `idna.h`. -/
structure IDNAResult where
  dest : List Nat
  errors : Nat

/-- Bitwise union of a list of error bit sets. -/
def orAll : List Nat → Nat
  | [] => 0
  | e :: r => e ||| orAll r

/-- Modelled from the spec: `IDNA::labelToASCII` (declared in `idna.h`).
The caller's error container is reset at the start of the operation; a
single-label call additionally flags an empty input label and an input
label containing a dot. -/
def labelToASCII (options : Nat) (label : List Nat) (errs : IDNAErrors) : IDNAResult :=
  let r := labelToASCIIImpl options label
  ⟨r.1,
    (IDNAErrors.reset errs).errors ||| r.2 |||
    (if label = [] then UIDNA_ERROR_EMPTY_LABEL else 0) |||
    (if label.any isSep then UIDNA_ERROR_LABEL_HAS_DOT else 0)⟩

/-- Modelled from the spec: `IDNA::labelToUnicode` (declared in `idna.h`).
The caller's error container is reset at the start of the operation. -/
def labelToUnicode (options : Nat) (label : List Nat) (errs : IDNAErrors) : IDNAResult :=
  let r := labelToUnicodeImpl options label
  ⟨r.1,
    (IDNAErrors.reset errs).errors ||| r.2 |||
    (if label = [] then UIDNA_ERROR_EMPTY_LABEL else 0) |||
    (if label.any isSep then UIDNA_ERROR_LABEL_HAS_DOT else 0)⟩

/-- The rendered ASCII labels of a whole-name ToASCII operation. -/
def nameToASCIILabels (options : Nat) (name : List Nat) : List (List Nat) :=
  (splitDots name).map (fun l => (labelToASCIIImpl options l).1)

/-- Modelled from the spec: `IDNA::nameToASCII` (declared in `idna.h`).
Splits at all dot-equivalent separators, applies the per-label ToASCII
pipeline, rejoins with ASCII dots, flags empty non-final labels (a single
trailing empty label is tolerated), and records DOMAIN_NAME_TOO_LONG when
the rendering exceeds 255 bytes under STD3 rules (section 4.5). -/
def nameToASCII (options : Nat) (name : List Nat) (errs : IDNAErrors) : IDNAResult :=
  let ls := splitDots name
  let rend := joinDots (nameToASCIILabels options name)
  ⟨rend,
    (IDNAErrors.reset errs).errors |||
    orAll (ls.map (fun l => (labelToASCIIImpl options l).2)) |||
    (if name = [] ∨ ls.dropLast.any (fun l => decide (l = [])) then UIDNA_ERROR_EMPTY_LABEL else 0) |||
    (if uts46UseSTD3 options ∧ rend.length > 255 then UIDNA_ERROR_DOMAIN_NAME_TOO_LONG else 0)⟩

/-- The per-label Unicode outputs of a whole-name ToUnicode operation. -/
def nameToUnicodeLabels (options : Nat) (name : List Nat) : List (List Nat) :=
  (splitDots name).map (fun l => (labelToUnicodeImpl options l).1)

/-- Modelled from the spec: `IDNA::nameToUnicode` (declared in `idna.h`).
Same splitting and joining as `nameToASCII`, using the per-label ToUnicode
pipeline; always produces a populated result (section 4.5). -/
def nameToUnicode (options : Nat) (name : List Nat) (errs : IDNAErrors) : IDNAResult :=
  let ls := splitDots name
  ⟨joinDots (nameToUnicodeLabels options name),
    (IDNAErrors.reset errs).errors |||
    orAll (ls.map (fun l => (labelToUnicodeImpl options l).2)) |||
    (if name = [] ∨ ls.dropLast.any (fun l => decide (l = [])) then UIDNA_ERROR_EMPTY_LABEL else 0)⟩

/-- Unicode-normalization equivalence of two strings (spec section 8,
"Unicode-normalization-equivalent"). -/
def normEquiv (a b : List Nat) : Prop :=
  nfcNormalize a = nfcNormalize b

/-- The never-fails output contract of ToUnicode operations: the output is
the input label itself, a mapped/normalized form of it, or the
mapped/normalized form of its ACE decoding (spec sections 4.5, 7, 8). -/
def toUnicodeFormOf (options : Nat) (out inp : List Nat) : Prop :=
  out = inp ∨
  out = uts46MapNorm (uts46UseSTD3 options) .nontrans inp ∨
  ∃ d, punyDecode (inp.drop 4) = some d ∧
    out = uts46MapNorm (uts46UseSTD3 options) .nontrans d

/-- Absence of the composable pair U+0061 U+0301 in adjacent positions;
strings with this property are fixed points of `nfcNormalize`. -/
def pairFree : List Nat → Bool
  | [] => true
  | [_] => true
  | a :: b :: r => !(decide (a = 0x61) && decide (b = 0x301)) && pairFree (b :: r)

/-! ### Bit set lemmas -/

theorem testBit_ite (c : Prop) [Decidable c] (f i : Nat) :
    (if c then f else 0).testBit i = (decide c && f.testBit i) := by
  split <;> simp_all [Nat.zero_testBit]

theorem orAll_testBit (ls : List Nat) (i : Nat) :
    (orAll ls).testBit i = ls.any (fun e => e.testBit i) := by
  induction ls with
  | nil => simp [orAll, Nat.zero_testBit]
  | cons e r ih => simp [orAll, Nat.testBit_lor, ih]

/-! ### Punycode codec lemmas -/

theorem cpDigitsAux_lt (f : Nat) : ∀ n d, d ∈ cpDigitsAux f n → d < 26 := by
  induction f with
  | zero => intro n d h; simp [cpDigitsAux] at h
  | succ f ih =>
    intro n d h
    unfold cpDigitsAux at h
    split at h
    · simp at h
    · rcases List.mem_append.mp h with h1 | h1
      · exact ih _ _ h1
      · simp at h1; omega

theorem pdAux_letters (ds : List Nat) (rest : List Nat) (acc : Nat)
    (hd : ∀ d ∈ ds, d < 26) :
    pdAux (ds.map (fun d => 0x61 + d) ++ rest) acc =
      pdAux rest (ds.foldl (fun a d => a * 26 + d) acc) := by
  induction ds generalizing acc with
  | nil => simp
  | cons d ds ih =>
    have hdlt : d < 26 := hd d (by simp)
    have h1 : ¬(0x61 + d = 0x30) := by omega
    have h2 : 0x61 ≤ 0x61 + d ∧ 0x61 + d ≤ 0x7A := by omega
    simp only [List.map_cons, List.cons_append, pdAux, if_neg h1, if_pos h2]
    have h3 : 0x61 + d - 0x61 = d := by omega
    rw [h3]
    exact ih _ (fun x hx => hd x (List.mem_cons_of_mem _ hx))

theorem cpDigitsAux_foldl (f : Nat) : ∀ n acc, n ≤ f →
    (cpDigitsAux f n).foldl (fun a d => a * 26 + d) acc =
      acc * 26 ^ (cpDigitsAux f n).length + n := by
  induction f with
  | zero => intro n acc h; interval_cases n; simp [cpDigitsAux]
  | succ f ih =>
    intro n acc h
    unfold cpDigitsAux
    split
    · simp; omega
    · rename_i hn
      have hle : n / 26 ≤ f := by
        have := Nat.div_lt_self (Nat.pos_of_ne_zero hn) (by norm_num : 1 < 26)
        omega
      rw [List.foldl_append, ih _ acc hle]
      have hdm : n / 26 * 26 + n % 26 = n := by
        have := Nat.div_add_mod n 26; omega
      simp only [List.foldl_cons, List.foldl_nil, List.length_append, List.length_cons,
        List.length_nil, Nat.zero_add, pow_succ]
      rw [Nat.add_mul, ← Nat.mul_assoc, Nat.add_assoc, hdm]

theorem pdAux_encodeCp (n : Nat) (rest : List Nat) (acc : Nat) :
    pdAux (encodeCp n ++ rest) acc =
      (pdAux rest 0).map (fun ds => (acc * 26 ^ (cpDigitsAux n n).length + n) :: ds) := by
  unfold encodeCp
  rw [List.append_assoc, pdAux_letters _ _ _ (fun d hd => cpDigitsAux_lt n n d hd),
    cpDigitsAux_foldl n n acc (Nat.le_refl n)]
  simp [pdAux]

theorem punyDecode_punyEncode (cps : List Nat) :
    punyDecode (punyEncode cps) = some cps := by
  have main : ∀ l, pdAux (punyEncode l) 0 = some l := by
    intro l
    induction l with
    | nil => simp [punyEncode, pdAux]
    | cons c r ih =>
      show pdAux (encodeCp c ++ punyEncode r) 0 = some (c :: r)
      rw [pdAux_encodeCp, ih]
      simp
  exact main cps

theorem encodeCp_mem (n x : Nat) (h : x ∈ encodeCp n) :
    x = 0x30 ∨ (0x61 ≤ x ∧ x ≤ 0x7A) := by
  unfold encodeCp at h
  rcases List.mem_append.mp h with h1 | h1
  · rcases List.mem_map.mp h1 with ⟨d, hd, rfl⟩
    have := cpDigitsAux_lt n n d hd
    right; omega
  · simp at h1; omega

theorem punyEncode_mem (l : List Nat) (x : Nat) (h : x ∈ punyEncode l) :
    x = 0x30 ∨ (0x61 ≤ x ∧ x ≤ 0x7A) := by
  induction l with
  | nil => simp [punyEncode] at h
  | cons c r ih =>
    rcases List.mem_append.mp h with h1 | h1
    · exact encodeCp_mem c x h1
    · exact ih h1

theorem pdAux_mem_of_some (l : List Nat) : ∀ acc ds, pdAux l acc = some ds →
    ∀ c ∈ l, c = 0x30 ∨ (0x61 ≤ c ∧ c ≤ 0x7A) := by
  induction l with
  | nil => intro acc ds _ c hc; simp at hc
  | cons a r ih =>
    intro acc ds h c hc
    unfold pdAux at h
    rcases List.mem_cons.mp hc with rfl | hc
    · split at h
      · left; assumption
      · split at h
        · right; assumption
        · exact absurd h (by simp)
    · split at h
      · rcases Option.map_eq_some'.mp h with ⟨ds2, h2, _⟩
        exact ih 0 ds2 h2 c hc
      · split at h
        · exact ih _ ds h c hc
        · exact absurd h (by simp)

/-! ### Character mapper lemmas -/

theorem classify_mapped_inv (c : Nat) (r : List Nat) (h : classify c = .mapped r) :
    (0x41 ≤ c ∧ c ≤ 0x5A) ∧ r = [c + 0x20] := by
  unfold classify at h
  split_ifs at h <;> simp_all

theorem classify_deviation_inv (c : Nat) (r : List Nat) (h : classify c = .deviation r) :
    (c = 0xDF ∧ r = [0x73, 0x73]) ∨ ((c = 0x200C ∨ c = 0x200D) ∧ r = []) := by
  unfold classify at h
  split_ifs at h <;> simp_all

theorem mapCharStr_LDH (std3 : Bool) (mode : MapMode) (c : Nat)
    (h : c = 0x2E ∨ isLDH c = true) : mapCharStr std3 mode c = [c] := by
  have hcl : classify c = .valid := by
    unfold classify
    rw [if_pos (by simpa using h)]
  have ha : asciiNonLDH c = false := by
    unfold asciiNonLDH
    rcases h with h | h <;> simp [h]
  simp [mapCharStr, hcl, ha]

theorem mapCharStr_FFFD (std3 : Bool) (mode : MapMode) :
    mapCharStr std3 mode 0xFFFD = [0xFFFD] := by
  have h1 : classify 0xFFFD = CharClass.disallowed := by decide
  simp [mapCharStr, h1]

theorem mapCharStr_E1 (std3 : Bool) (mode : MapMode) :
    mapCharStr std3 mode 0xE1 = [0xE1] := by
  have h1 : classify 0xE1 = CharClass.valid := by decide
  have h2 : asciiNonLDH 0xE1 = false := by decide
  simp [mapCharStr, h1, h2]

theorem mapCharStr_out_fixed (std3 : Bool) (mode : MapMode) (c d : Nat)
    (h : d ∈ mapCharStr std3 mode c) : mapCharStr std3 mode d = [d] := by
  rcases hc : classify c with _ | r | r | _
  · simp only [mapCharStr, hc] at h
    by_cases hstd : std3 ∧ asciiNonLDH c
    · rw [if_pos hstd] at h
      simp at h
      subst h
      exact mapCharStr_FFFD std3 mode
    · rw [if_neg hstd] at h
      simp at h
      subst h
      simp [mapCharStr, hc, hstd]
  · obtain ⟨⟨h1, h2⟩, rfl⟩ := classify_mapped_inv c r hc
    simp only [mapCharStr, hc] at h
    simp at h
    subst h
    apply mapCharStr_LDH
    right
    unfold isLDH
    simp
    omega
  · rcases classify_deviation_inv c r hc with ⟨rfl, rfl⟩ | ⟨hcj, rfl⟩
    · cases mode with
      | trans =>
        simp only [mapCharStr, hc] at h
        simp at h
        subst h
        apply mapCharStr_LDH
        right
        decide
      | nontrans =>
        simp only [mapCharStr, hc] at h
        simp at h
        subst h
        simp [mapCharStr, hc]
    · cases mode with
      | trans => simp only [mapCharStr, hc] at h; simp at h
      | nontrans =>
        simp only [mapCharStr, hc] at h
        simp at h
        subst h
        simp [mapCharStr, hc]
  · simp only [mapCharStr, hc] at h
    simp at h
    subst h
    exact mapCharStr_FFFD std3 mode

theorem mapCharStr_nontrans_of_fixed (std3 : Bool) (mode : MapMode) (c : Nat)
    (h : mapCharStr std3 mode c = [c]) : mapCharStr std3 MapMode.nontrans c = [c] := by
  cases mode with
  | nontrans => exact h
  | trans =>
    rcases hc : classify c with _ | r | r | _
    · simp only [mapCharStr, hc] at h ⊢
      exact h
    · obtain ⟨⟨h1, h2⟩, rfl⟩ := classify_mapped_inv c r hc
      simp only [mapCharStr, hc] at h
      simp at h
    · rcases classify_deviation_inv c r hc with ⟨rfl, rfl⟩ | ⟨hcj, rfl⟩ <;>
        simp only [mapCharStr, hc] at h ⊢ <;> simp_all
    · simp only [mapCharStr, hc] at h ⊢
      exact h

theorem mapOut_fixed (std3 : Bool) (mode : MapMode) (l : List Nat)
    (h : ∀ c ∈ l, mapCharStr std3 mode c = [c]) : mapOut std3 mode l = l := by
  induction l with
  | nil => rfl
  | cons c r ih =>
    simp only [mapOut]
    rw [h c (by simp), ih (fun x hx => h x (by simp [hx]))]
    rfl

theorem mapOut_mem (std3 : Bool) (mode : MapMode) (l : List Nat) (d : Nat)
    (h : d ∈ mapOut std3 mode l) : ∃ c ∈ l, d ∈ mapCharStr std3 mode c := by
  induction l with
  | nil => simp [mapOut] at h
  | cons c r ih =>
    simp only [mapOut] at h
    rcases List.mem_append.mp h with h1 | h1
    · exact ⟨c, by simp, h1⟩
    · obtain ⟨x, hx, hd⟩ := ih h1
      exact ⟨x, by simp [hx], hd⟩

/-! ### Normalizer lemmas -/

theorem pairFree_cons (a : Nat) (xs : List Nat)
    (h : ∀ x, xs.head? = some x → ¬(a = 0x61 ∧ x = 0x301))
    (hp : pairFree xs = true) : pairFree (a :: xs) = true := by
  cases xs with
  | nil => rfl
  | cons b r =>
    have hb := h b rfl
    simp [pairFree, hp]
    tauto

theorem nfcNormalize_head (b : Nat) (r : List Nat) :
    (nfcNormalize (b :: r)).head? = some b ∨ (nfcNormalize (b :: r)).head? = some 0xE1 := by
  cases r with
  | nil => left; rfl
  | cons c t =>
    unfold nfcNormalize
    split
    · right; rfl
    · left; rfl

theorem pairFree_nfcNormalize (l : List Nat) : pairFree (nfcNormalize l) = true := by
  induction l using nfcNormalize.induct with
  | case1 => rfl
  | case2 c => rfl
  | case3 a b rest h ih =>
    simp only [nfcNormalize, if_pos h]
    apply pairFree_cons _ _ _ ih
    rintro x - ⟨h1, -⟩
    exact absurd h1 (by decide)
  | case4 a b rest h ih =>
    simp only [nfcNormalize, if_neg h]
    apply pairFree_cons _ _ _ ih
    intro x hx
    rcases nfcNormalize_head b rest with h1 | h1 <;> rw [h1] at hx <;>
      injection hx with hx
    · subst hx; exact h
    · subst hx; rintro ⟨-, h2⟩; exact absurd h2 (by decide)

theorem nfcNormalize_of_pairFree (l : List Nat) (h : pairFree l = true) :
    nfcNormalize l = l := by
  induction l using nfcNormalize.induct with
  | case1 => rfl
  | case2 c => rfl
  | case3 a b rest hab ih =>
    exfalso
    unfold pairFree at h
    rw [Bool.and_eq_true] at h
    simp [hab.1, hab.2] at h
  | case4 a b rest hab ih =>
    unfold pairFree at h
    rw [Bool.and_eq_true] at h
    simp only [nfcNormalize, if_neg hab]
    rw [ih h.2]

theorem nfcNormalize_idem (l : List Nat) :
    nfcNormalize (nfcNormalize l) = nfcNormalize l :=
  nfcNormalize_of_pairFree _ (pairFree_nfcNormalize l)

theorem nfcNormalize_mem (l : List Nat) (d : Nat) (h : d ∈ nfcNormalize l) :
    d ∈ l ∨ d = 0xE1 := by
  induction l using nfcNormalize.induct with
  | case1 => simp [nfcNormalize] at h
  | case2 c => simp [nfcNormalize] at h; simp [h]
  | case3 a b rest hab ih =>
    simp only [nfcNormalize, if_pos hab] at h
    rcases List.mem_cons.mp h with rfl | h1
    · right; rfl
    · rcases ih h1 with h2 | h2
      · left; simp [h2]
      · right; exact h2
  | case4 a b rest hab ih =>
    simp only [nfcNormalize, if_neg hab] at h
    rcases List.mem_cons.mp h with rfl | h1
    · left; simp
    · rcases ih h1 with h2 | h2
      · left; simp at h2; rcases h2 with h2 | h2 <;> simp [h2]
      · right; exact h2

theorem pairFree_of_no301 (l : List Nat) (h : ∀ c ∈ l, c ≠ 0x301) :
    pairFree l = true := by
  induction l with
  | nil => rfl
  | cons a xs ih =>
    apply pairFree_cons
    · intro x hx
      rintro ⟨-, rfl⟩
      exact absurd rfl (h 0x301 (by cases xs <;> simp_all [List.head?]))
    · exact ih (fun c hc => h c (by simp [hc]))

theorem nfcNormalize_of_ascii (l : List Nat) (h : ∀ c ∈ l, c < 0x80) :
    nfcNormalize l = l :=
  nfcNormalize_of_pairFree l (pairFree_of_no301 l (fun c hc => by have := h c hc; omega))

/-! ### Map-and-normalize stage lemmas -/

theorem uts46MapNorm_mem_fixed (std3 : Bool) (mode : MapMode) (l : List Nat) (d : Nat)
    (h : d ∈ uts46MapNorm std3 mode l) : mapCharStr std3 mode d = [d] := by
  unfold uts46MapNorm at h
  rcases nfcNormalize_mem _ _ h with h1 | rfl
  · obtain ⟨c, -, hd⟩ := mapOut_mem std3 mode _ d h1
    exact mapCharStr_out_fixed std3 mode c d hd
  · exact mapCharStr_E1 std3 mode

theorem uts46MapNorm_idem (std3 : Bool) (mode : MapMode) (l : List Nat) :
    uts46MapNorm std3 mode (uts46MapNorm std3 mode l) = uts46MapNorm std3 mode l := by
  unfold uts46MapNorm
  rw [mapOut_fixed std3 mode (nfcNormalize (mapOut std3 mode l))
    (fun c hc => uts46MapNorm_mem_fixed std3 mode l c hc)]
  exact nfcNormalize_idem _

theorem uts46MapNorm_fixed (std3 : Bool) (mode : MapMode) (l : List Nat)
    (hc : ∀ c ∈ l, mapCharStr std3 mode c = [c]) (hn : pairFree l = true) :
    uts46MapNorm std3 mode l = l := by
  unfold uts46MapNorm
  rw [mapOut_fixed std3 mode l hc, nfcNormalize_of_pairFree l hn]

/-! ### Label splitter/joiner lemmas -/

theorem splitDots_ne_nil (l : List Nat) : splitDots l ≠ [] := by
  induction l with
  | nil => simp [splitDots]
  | cons c rest ih =>
    unfold splitDots
    split
    · simp
    · split
      · simp
      · simp

theorem splitDots_sepFree (l : List Nat) :
    ∀ p ∈ splitDots l, ∀ c ∈ p, isSep c = false := by
  induction l with
  | nil =>
    intro p hp c hc
    simp [splitDots] at hp
    subst hp
    simp at hc
  | cons a rest ih =>
    intro p hp c hc
    unfold splitDots at hp
    by_cases ha : isSep a = true
    · rw [if_pos ha] at hp
      rcases List.mem_cons.mp hp with rfl | hp
      · simp at hc
      · exact ih p hp c hc
    · rw [if_neg ha] at hp
      rcases hs : splitDots rest with - | ⟨q, qs⟩
      · exact absurd hs (splitDots_ne_nil rest)
      · rw [hs] at hp
        rcases List.mem_cons.mp hp with rfl | hp
        · rcases List.mem_cons.mp hc with rfl | hc
          · simpa using ha
          · exact ih q (by simp [hs]) c hc
        · exact ih p (by simp [hs, hp]) c hc

theorem splitDots_of_sepFree (l : List Nat) (h : ∀ c ∈ l, isSep c = false) :
    splitDots l = [l] := by
  induction l with
  | nil => rfl
  | cons a rest ih =>
    unfold splitDots
    rw [if_neg (by simp [h a (by simp)]), ih (fun c hc => h c (by simp [hc]))]

theorem splitDots_cons_of (a : Nat) (rest : List Nat) (q : List Nat) (qs : List (List Nat))
    (h : isSep a = false) (hs : splitDots rest = q :: qs) :
    splitDots (a :: rest) = (a :: q) :: qs := by
  unfold splitDots
  rw [if_neg (by simp [h]), hs]

theorem splitDots_append_sep (p t : List Nat) (h : ∀ c ∈ p, isSep c = false) :
    splitDots (p ++ 0x2E :: t) = p :: splitDots t := by
  induction p with
  | nil =>
    simp only [List.nil_append, splitDots]
    rw [if_pos (by decide)]
  | cons a p ih =>
    have hrest := ih (fun c hc => h c (by simp [hc]))
    rw [List.cons_append]
    exact splitDots_cons_of a _ _ _ (h a (by simp)) hrest

theorem splitDots_joinDots (ps : List (List Nat)) (hne : ps ≠ [])
    (h : ∀ p ∈ ps, ∀ c ∈ p, isSep c = false) :
    splitDots (joinDots ps) = ps := by
  induction ps with
  | nil => exact absurd rfl hne
  | cons p qs ih =>
    cases qs with
    | nil =>
      exact splitDots_of_sepFree p (h p (by simp))
    | cons q r =>
      show splitDots (p ++ 0x2E :: joinDots (q :: r)) = p :: q :: r
      rw [splitDots_append_sep p _ (h p (by simp)),
        ih (by simp) (fun x hx c hc => h x (List.mem_cons_of_mem _ hx) c hc)]

/-! ### ToASCII rendering lemmas -/

theorem mapCharStr_mem_cases (std3 : Bool) (mode : MapMode) (c d : Nat)
    (h : d ∈ mapCharStr std3 mode c) :
    d = c ∨ d = 0xFFFD ∨ d = 0x73 ∨ (0x61 ≤ d ∧ d ≤ 0x7A) := by
  rcases hc : classify c with _ | r | r | _
  · simp only [mapCharStr, hc] at h
    split at h <;> simp at h <;> simp [h]
  · obtain ⟨⟨h1, h2⟩, rfl⟩ := classify_mapped_inv c r hc
    simp only [mapCharStr, hc] at h
    simp at h
    right; right; right
    omega
  · rcases classify_deviation_inv c r hc with ⟨rfl, rfl⟩ | ⟨hcj, rfl⟩ <;>
      cases mode <;> simp only [mapCharStr, hc] at h <;> simp at h <;> simp [h]
  · simp only [mapCharStr, hc] at h
    simp at h
    simp [h]

theorem isSep_false_of_cases (d : Nat)
    (h : d = 0xFFFD ∨ d = 0x73 ∨ (0x61 ≤ d ∧ d ≤ 0x7A)) : isSep d = false := by
  unfold isSep
  simp only [decide_eq_false_iff_not]
  rcases h with rfl | rfl | h <;> omega

theorem uts46MapNorm_sepFree (std3 : Bool) (mode : MapMode) (l : List Nat)
    (hl : ∀ c ∈ l, isSep c = false) :
    ∀ d ∈ uts46MapNorm std3 mode l, isSep d = false := by
  intro d hd
  unfold uts46MapNorm at hd
  rcases nfcNormalize_mem _ _ hd with h1 | rfl
  · obtain ⟨c, hc, hdc⟩ := mapOut_mem std3 mode _ d h1
    rcases mapCharStr_mem_cases std3 mode c d hdc with rfl | h2
    · exact hl d hc
    · exact isSep_false_of_cases d h2
  · decide

theorem aceMarker_mem_props (c : Nat) (h : c ∈ aceMarker) :
    c < 0x80 ∧ isSep c = false ∧ (c = 0x2E ∨ isLDH c = true) := by
  simp [aceMarker] at h
  rcases h with rfl | rfl | rfl <;> refine ⟨by norm_num, by decide, by right; decide⟩

theorem punyEncode_mem_props (l : List Nat) (c : Nat) (h : c ∈ punyEncode l) :
    c < 0x80 ∧ isSep c = false ∧ (c = 0x2E ∨ isLDH c = true) := by
  rcases punyEncode_mem l c h with rfl | hc
  · exact ⟨by norm_num, by decide, by right; decide⟩
  · refine ⟨by omega, ?_, ?_⟩
    · unfold isSep; simp only [decide_eq_false_iff_not]; omega
    · right; unfold isLDH; simp only [decide_eq_true_eq]; omega

theorem labelToASCIIImpl_dest (options : Nat) (l : List Nat) :
    (labelToASCIIImpl options l).1 =
      if (uts46MapNorm (uts46UseSTD3 options) (toASCIIMapMode options) l).all
          (fun c => decide (c < 0x80)) then
        uts46MapNorm (uts46UseSTD3 options) (toASCIIMapMode options) l
      else
        aceMarker ++ punyEncode (uts46MapNorm (uts46UseSTD3 options) (toASCIIMapMode options) l) :=
  rfl

theorem labelToASCIIImpl_rend_props (options : Nat) (l : List Nat)
    (hl : ∀ c ∈ l, isSep c = false) :
    (∀ c ∈ (labelToASCIIImpl options l).1, c < 0x80 ∧ isSep c = false) ∧
    uts46MapNorm (uts46UseSTD3 options) (toASCIIMapMode options)
      (labelToASCIIImpl options l).1 = (labelToASCIIImpl options l).1 := by
  rw [labelToASCIIImpl_dest]
  by_cases hall : (uts46MapNorm (uts46UseSTD3 options) (toASCIIMapMode options) l).all
      (fun c => decide (c < 0x80)) = true
  · rw [if_pos hall]
    constructor
    · intro c hc
      refine ⟨?_, uts46MapNorm_sepFree _ _ l hl c hc⟩
      have := List.all_eq_true.mp hall c hc
      simpa using this
    · apply uts46MapNorm_fixed
      · intro c hc
        exact uts46MapNorm_mem_fixed _ _ l c hc
      · exact pairFree_nfcNormalize _
  · rw [if_neg hall]
    have hchars : ∀ c ∈ aceMarker ++
        punyEncode (uts46MapNorm (uts46UseSTD3 options) (toASCIIMapMode options) l),
        c < 0x80 ∧ isSep c = false ∧ (c = 0x2E ∨ isLDH c = true) := by
      intro c hc
      rcases List.mem_append.mp hc with h1 | h1
      · exact aceMarker_mem_props c h1
      · exact punyEncode_mem_props _ c h1
    constructor
    · intro c hc
      exact ⟨(hchars c hc).1, (hchars c hc).2.1⟩
    · apply uts46MapNorm_fixed
      · intro c hc
        rcases (hchars c hc).2.2 with h2 | h2
        · exact mapCharStr_LDH _ _ c (Or.inl h2)
        · exact mapCharStr_LDH _ _ c (Or.inr h2)
      · apply pairFree_of_no301
        intro c hc
        have := (hchars c hc).1
        omega

theorem labelToASCIIImpl_idem_dest (options : Nat) (l : List Nat)
    (hl : ∀ c ∈ l, isSep c = false) :
    (labelToASCIIImpl options (labelToASCIIImpl options l).1).1 =
      (labelToASCIIImpl options l).1 := by
  obtain ⟨hchars, hfix⟩ := labelToASCIIImpl_rend_props options l hl
  have hall : ((labelToASCIIImpl options l).1).all (fun c => decide (c < 0x80)) = true := by
    rw [List.all_eq_true]
    intro c hc
    simpa using (hchars c hc).1
  rw [labelToASCIIImpl_dest options (labelToASCIIImpl options l).1, hfix, if_pos hall]

theorem listMap_fixed {α : Type} (f : α → α) (ls : List α) (h : ∀ p ∈ ls, f p = p) :
    ls.map f = ls := by
  induction ls with
  | nil => rfl
  | cons p r ih =>
    simp only [List.map_cons, h p (by simp), ih (fun q hq => h q (by simp [hq]))]

/-- C4: idempotence of `nameToASCII` — for every input whose first pass sets
no error flags, applying `nameToASCII` to its own result returns that result
unchanged. -/
theorem nameToASCII_idempotent (options : Nat) (name : List Nat) (e1 e2 : IDNAErrors)
    (herr : (nameToASCII options name e1).errors = 0) :
    (nameToASCII options ((nameToASCII options name e1).dest) e2).dest =
      (nameToASCII options name e1).dest := by
  clear herr
  have hsep : ∀ p ∈ (splitDots name).map (fun l => (labelToASCIIImpl options l).1),
      ∀ c ∈ p, isSep c = false := by
    intro p hp c hc
    rcases List.mem_map.mp hp with ⟨l, hl, rfl⟩
    exact ((labelToASCIIImpl_rend_props options l (splitDots_sepFree name l hl)).1 c hc).2
  have hne : (splitDots name).map (fun l => (labelToASCIIImpl options l).1) ≠ [] := by
    intro h
    exact splitDots_ne_nil name (List.map_eq_nil.mp h)
  have hsplit := splitDots_joinDots _ hne hsep
  have hmap : ((splitDots name).map (fun l => (labelToASCIIImpl options l).1)).map
      (fun l => (labelToASCIIImpl options l).1) =
      (splitDots name).map (fun l => (labelToASCIIImpl options l).1) := by
    apply listMap_fixed
    intro p hp
    rcases List.mem_map.mp hp with ⟨l, hl, rfl⟩
    exact labelToASCIIImpl_idem_dest options l (splitDots_sepFree name l hl)
  show joinDots ((splitDots (joinDots ((splitDots name).map
      (fun l => (labelToASCIIImpl options l).1)))).map
      (fun l => (labelToASCIIImpl options l).1)) = _
  rw [hsplit, hmap]
  rfl

/-- Witness for C4 at the concrete error-free name "ab". -/
theorem nameToASCII_idempotent_witness :
    (nameToASCII 0 [0x61, 0x62] IDNAErrors.init).errors = 0 ∧
    (nameToASCII 0 ((nameToASCII 0 [0x61, 0x62] IDNAErrors.init).dest) IDNAErrors.init).dest =
      (nameToASCII 0 [0x61, 0x62] IDNAErrors.init).dest :=
  ⟨by decide, nameToASCII_idempotent 0 [0x61, 0x62] IDNAErrors.init IDNAErrors.init (by decide)⟩

/-! ### Error container and error accumulation -/

/-- C10: a default-constructed `IDNAErrors` container reports no errors, and
`hasErrors()` is TRUE exactly when `getErrors()` is nonzero. -/
theorem idnaErrors_default_hasErrors :
    IDNAErrors.init.getErrors = 0 ∧ IDNAErrors.init.hasErrors = false ∧
    ∀ e : IDNAErrors, (e.hasErrors = true ↔ e.getErrors ≠ 0) := by
  refine ⟨rfl, rfl, fun e => ?_⟩
  simp [IDNAErrors.hasErrors, IDNAErrors.getErrors]

theorem validateLabel_testBit_leading (options : Nat) (isToA : Bool) (uni rend : List Nat)
    (h : uni.head? = some 0x2D) : (validateLabel options isToA uni rend).testBit 3 = true := by
  have h8 : Nat.testBit 8 3 = true := by decide
  simp [validateLabel, testBit_ite, Nat.testBit_lor, h, UIDNA_ERROR_LEADING_HYPHEN, h8]

theorem validateLabel_testBit_trailing (options : Nat) (isToA : Bool) (uni rend : List Nat)
    (h : uni.getLast? = some 0x2D) : (validateLabel options isToA uni rend).testBit 4 = true := by
  have h16 : Nat.testBit 0x10 4 = true := by decide
  simp [validateLabel, testBit_ite, Nat.testBit_lor, h, UIDNA_ERROR_TRAILING_HYPHEN, h16]

/-- C5: the error accumulation invariant — recording a flag sets its bit and
never clears previously set bits; `reset` yields the empty bit set; every
public operation resets the caller's container first, so its recorded errors
are independent of any earlier state; and independent violations in one label
(here leading hyphen, trailing hyphen, disallowed character) each set their
own bit in the same call, so all of them are reported simultaneously. -/
theorem idnaErrors_accumulation :
    (∀ (e : IDNAErrors) (k : Nat), ( e.recordError (2 ^ k)).errors.testBit k = true) ∧
    (∀ (e : IDNAErrors) (f j : Nat), e.errors.testBit j = true →
      ( e.recordError f).errors.testBit j = true) ∧
    (∀ e : IDNAErrors, (IDNAErrors.reset e).errors = 0) ∧
    (∀ (options : Nat) (label : List Nat) (p q : IDNAErrors),
      (labelToASCII options label p).errors = (labelToASCII options label q).errors ∧
      (labelToUnicode options label p).errors = (labelToUnicode options label q).errors) ∧
    (∀ (options : Nat) (name : List Nat) (p q : IDNAErrors),
      (nameToASCII options name p).errors = (nameToASCII options name q).errors ∧
      (nameToUnicode options name p).errors = (nameToUnicode options name q).errors) ∧
    (∀ (options : Nat) (label : List Nat) (e : IDNAErrors),
      ((uts46MapNorm (uts46UseSTD3 options) (toASCIIMapMode options) label).head? = some 0x2D →
        (labelToASCII options label e).errors.testBit 3 = true) ∧
      ((uts46MapNorm (uts46UseSTD3 options) (toASCIIMapMode options) label).getLast? = some 0x2D →
        (labelToASCII options label e).errors.testBit 4 = true) ∧
      (mapHasDisallowed (uts46UseSTD3 options) label = true →
        (labelToASCII options label e).errors.testBit 7 = true)) := by
  refine ⟨?_, ?_, ?_, ?_, ?_, ?_⟩
  · intro e k
    simp [IDNAErrors.recordError, Nat.testBit_lor, Nat.testBit_two_pow_self]
  · intro e f j h
    simp [IDNAErrors.recordError, Nat.testBit_lor, h]
  · intro e
    rfl
  · intro options label p q
    exact ⟨rfl, rfl⟩
  · intro options name p q
    exact ⟨rfl, rfl⟩
  · intro options label e
    refine ⟨?_, ?_, ?_⟩
    · intro h
      have := validateLabel_testBit_leading options true
        (uts46MapNorm (uts46UseSTD3 options) (toASCIIMapMode options) label)
        ((labelToASCIIImpl options label).1) h
      simp [labelToASCII, labelToASCIIImpl, IDNAErrors.reset, Nat.testBit_lor,
        Nat.zero_testBit]
      simp [labelToASCIIImpl] at this
      simp [this]
    · intro h
      have := validateLabel_testBit_trailing options true
        (uts46MapNorm (uts46UseSTD3 options) (toASCIIMapMode options) label)
        ((labelToASCIIImpl options label).1) h
      simp [labelToASCII, labelToASCIIImpl, IDNAErrors.reset, Nat.testBit_lor,
        Nat.zero_testBit]
      simp [labelToASCIIImpl] at this
      simp [this]
    · intro h
      have h128 : Nat.testBit 0x80 7 = true := by decide
      simp [labelToASCII, labelToASCIIImpl, IDNAErrors.reset, Nat.testBit_lor,
        Nat.zero_testBit, testBit_ite, h, UIDNA_ERROR_DISALLOWED, h128]

/-- Witness for C5: at the label hyphen,U+FFFD,hyphen all three violation bits
are simultaneously set, and recording a flag sets its bit. -/
theorem idnaErrors_accumulation_witness :
    (labelToASCII 0 [0x2D, 0xFFFD, 0x2D] IDNAErrors.init).errors.testBit 3 = true ∧
    (labelToASCII 0 [0x2D, 0xFFFD, 0x2D] IDNAErrors.init).errors.testBit 4 = true ∧
    (labelToASCII 0 [0x2D, 0xFFFD, 0x2D] IDNAErrors.init).errors.testBit 7 = true ∧
    (IDNAErrors.init.recordError (2 ^ 10)).errors.testBit 10 = true := by
  obtain ⟨h1, -, -, -, -, h6⟩ := idnaErrors_accumulation
  exact ⟨(h6 0 [0x2D, 0xFFFD, 0x2D] IDNAErrors.init).1 (by decide),
    (h6 0 [0x2D, 0xFFFD, 0x2D] IDNAErrors.init).2.1 (by decide),
    (h6 0 [0x2D, 0xFFFD, 0x2D] IDNAErrors.init).2.2 (by decide),
    h1 IDNAErrors.init 10⟩

/-! ### ToUnicode fallback on invalid ACE labels -/

theorem aceMarker_take (body : List Nat) : (aceMarker ++ body).take 4 = aceMarker := by
  rw [show (4 : Nat) = aceMarker.length from rfl, List.take_left]

theorem aceMarker_drop (body : List Nat) : (aceMarker ++ body).drop 4 = body := by
  rw [show (4 : Nat) = aceMarker.length from rfl, List.drop_left]

/-- C2: for a label "xn--" ++ body whose body is not valid punycode, or whose
decoding fails the round-trip check, ToUnicode returns the original label
text unchanged and records INVALID_ACE_LABEL (bit 10 = 0x400). -/
theorem invalidACE_fallback (options : Nat) (body : List Nat) (e : IDNAErrors)
    (h : punyDecode body = none ∨
      ∃ d, punyDecode body = some d ∧
        punyEncode (uts46MapNorm (uts46UseSTD3 options) MapMode.nontrans d) ≠ body) :
    (labelToUnicode options (aceMarker ++ body) e).dest = aceMarker ++ body ∧
    (labelToUnicode options (aceMarker ++ body) e).errors.testBit 10 = true := by
  have himpl : labelToUnicodeImpl options (aceMarker ++ body) =
      (aceMarker ++ body,
        if punyDecode body = none then
          UIDNA_ERROR_PUNYCODE ||| UIDNA_ERROR_INVALID_ACE_LABEL
        else UIDNA_ERROR_INVALID_ACE_LABEL) := by
    unfold labelToUnicodeImpl
    rw [if_pos (aceMarker_take body), aceMarker_drop]
    rcases hpd : punyDecode body with - | d
    · simp [hpd]
    · rcases h with h1 | ⟨d2, hd2, hne⟩
      · rw [h1] at hpd; exact absurd hpd (by simp)
      · rw [hd2] at hpd
        injection hpd with hpd
        subst hpd
        simp only [if_neg hne]
        simp [hd2]
  constructor
  · show (labelToUnicodeImpl options (aceMarker ++ body)).1 = aceMarker ++ body
    rw [himpl]
  · show ((IDNAErrors.reset e).errors ||| (labelToUnicodeImpl options (aceMarker ++ body)).2 |||
      (if aceMarker ++ body = [] then UIDNA_ERROR_EMPTY_LABEL else 0) |||
      (if (aceMarker ++ body).any isSep then UIDNA_ERROR_LABEL_HAS_DOT else 0)).testBit 10 = true
    rw [himpl]
    have hb1 : Nat.testBit (UIDNA_ERROR_PUNYCODE ||| UIDNA_ERROR_INVALID_ACE_LABEL) 10 = true := by
      decide
    have hb2 : Nat.testBit UIDNA_ERROR_INVALID_ACE_LABEL 10 = true := by decide
    have hb3 : Nat.testBit UIDNA_ERROR_EMPTY_LABEL 10 = false := by decide
    have hb4 : Nat.testBit UIDNA_ERROR_LABEL_HAS_DOT 10 = false := by decide
    simp [Nat.testBit_lor, testBit_ite, IDNAErrors.reset, Nat.zero_testBit, hb1, hb2, hb3, hb4]
    split <;> simp [hb1, hb2]

/-- Witness for C2 at the malformed punycode body "invalid!!". -/
theorem invalidACE_fallback_witness :
    (labelToUnicode 0 (aceMarker ++ [0x69, 0x6E, 0x76, 0x61, 0x6C, 0x69, 0x64, 0x21, 0x21])
        IDNAErrors.init).dest =
      aceMarker ++ [0x69, 0x6E, 0x76, 0x61, 0x6C, 0x69, 0x64, 0x21, 0x21] ∧
    (labelToUnicode 0 (aceMarker ++ [0x69, 0x6E, 0x76, 0x61, 0x6C, 0x69, 0x64, 0x21, 0x21])
        IDNAErrors.init).errors.testBit 10 = true :=
  invalidACE_fallback 0 [0x69, 0x6E, 0x76, 0x61, 0x6C, 0x69, 0x64, 0x21, 0x21]
    IDNAErrors.init (Or.inl (by decide))

/-! ### Mapping mode selection -/

/-- C9: deviation code points are mapped by transitional processing and pass
through unchanged under nontransitional processing; ToASCII operations use
the transitional mode unless `UIDNA_NONTRANSITIONAL_TO_ASCII` is set, while
ToUnicode operations always process with the nontransitional mapper. -/
theorem deviation_mode_selection :
    (∀ (std3 : Bool) (c : Nat) (r : List Nat), classify c = CharClass.deviation r →
      mapCharStr std3 MapMode.trans c = r ∧ mapCharStr std3 MapMode.nontrans c = [c]) ∧
    (∀ options : Nat, uts46Nontransitional options = false →
      toASCIIMapMode options = MapMode.trans) ∧
    (∀ options : Nat, uts46Nontransitional options = true →
      toASCIIMapMode options = MapMode.nontrans) ∧
    (∀ (options : Nat) (label : List Nat), ¬ label.take 4 = aceMarker →
      (labelToUnicodeImpl options label).1 =
        uts46MapNorm (uts46UseSTD3 options) MapMode.nontrans label) := by
  refine ⟨?_, ?_, ?_, ?_⟩
  · intro std3 c r h
    constructor <;> simp [mapCharStr, h]
  · intro options h
    simp [toASCIIMapMode, h]
  · intro options h
    simp [toASCIIMapMode, h]
  · intro options label h
    unfold labelToUnicodeImpl
    rw [if_neg h]

/-- Witness for C9 at the deviation character U+00DF and concrete options. -/
theorem deviation_mode_selection_witness :
    mapCharStr false MapMode.trans 0xDF = [0x73, 0x73] ∧
    mapCharStr false MapMode.nontrans 0xDF = [0xDF] ∧
    toASCIIMapMode 0 = MapMode.trans ∧
    toASCIIMapMode 0x10 = MapMode.nontrans ∧
    (labelToUnicodeImpl 0 [0x61, 0xDF]).1 =
      uts46MapNorm (uts46UseSTD3 0) MapMode.nontrans [0x61, 0xDF] := by
  obtain ⟨h1, h2, h3, h4⟩ := deviation_mode_selection
  have hd := h1 false 0xDF [0x73, 0x73] (by decide)
  exact ⟨hd.1, hd.2, h2 0 (by decide), h3 0x10 (by decide), h4 0 [0x61, 0xDF] (by decide)⟩

/-! ### LABEL_TOO_LONG characterization -/

theorem validateLabel_testBit1_iff (options : Nat) (uni rend : List Nat) :
    ((validateLabel options true uni rend).testBit 1 = true ↔
      (uts46UseSTD3 options = true ∧ rend.length > 63)) := by
  have a1 : Nat.testBit UIDNA_ERROR_LEADING_HYPHEN 1 = false := by decide
  have a2 : Nat.testBit UIDNA_ERROR_TRAILING_HYPHEN 1 = false := by decide
  have a3 : Nat.testBit UIDNA_ERROR_HYPHEN_3_4 1 = false := by decide
  have a4 : Nat.testBit UIDNA_ERROR_LEADING_COMBINING_MARK 1 = false := by decide
  have a5 : Nat.testBit UIDNA_ERROR_LABEL_TOO_LONG 1 = true := by decide
  have a6 : Nat.testBit UIDNA_ERROR_BIDI 1 = false := by decide
  have a7 : Nat.testBit UIDNA_ERROR_CONTEXTJ 1 = false := by decide
  unfold validateLabel
  simp [Nat.testBit_lor, testBit_ite, a1, a2, a3, a4, a5, a6, a7]

theorem validateLabel_testBit1_false (options : Nat) (uni rend : List Nat) :
    (validateLabel options false uni rend).testBit 1 = false := by
  have a1 : Nat.testBit UIDNA_ERROR_LEADING_HYPHEN 1 = false := by decide
  have a2 : Nat.testBit UIDNA_ERROR_TRAILING_HYPHEN 1 = false := by decide
  have a3 : Nat.testBit UIDNA_ERROR_HYPHEN_3_4 1 = false := by decide
  have a4 : Nat.testBit UIDNA_ERROR_LEADING_COMBINING_MARK 1 = false := by decide
  have a6 : Nat.testBit UIDNA_ERROR_BIDI 1 = false := by decide
  have a7 : Nat.testBit UIDNA_ERROR_CONTEXTJ 1 = false := by decide
  unfold validateLabel
  simp [Nat.testBit_lor, testBit_ite, a1, a2, a3, a4, a6, a7]

theorem labelToASCIIImpl_errs (options : Nat) (label : List Nat) :
    (labelToASCIIImpl options label).2 =
      (if mapHasDisallowed (uts46UseSTD3 options) label then UIDNA_ERROR_DISALLOWED else 0) |||
      validateLabel options true
        (uts46MapNorm (uts46UseSTD3 options) (toASCIIMapMode options) label)
        ((labelToASCIIImpl options label).1) :=
  rfl

theorem labelToASCIIImpl_testBit1_iff (options : Nat) (label : List Nat) :
    ((labelToASCIIImpl options label).2.testBit 1 = true ↔
      (uts46UseSTD3 options = true ∧ (labelToASCIIImpl options label).1.length > 63)) := by
  have a0 : Nat.testBit UIDNA_ERROR_DISALLOWED 1 = false := by decide
  rw [labelToASCIIImpl_errs]
  simp [Nat.testBit_lor, testBit_ite, a0, validateLabel_testBit1_iff]

theorem labelToUnicodeImpl_testBit1_false (options : Nat) (label : List Nat) :
    (labelToUnicodeImpl options label).2.testBit 1 = false := by
  have b1 : Nat.testBit (UIDNA_ERROR_PUNYCODE ||| UIDNA_ERROR_INVALID_ACE_LABEL) 1 = false := by
    decide
  have b2 : Nat.testBit UIDNA_ERROR_INVALID_ACE_LABEL 1 = false := by decide
  have b3 : Nat.testBit UIDNA_ERROR_DISALLOWED 1 = false := by decide
  have b4 : Nat.testBit UIDNA_ERROR_LABEL_HAS_DOT 1 = false := by decide
  unfold labelToUnicodeImpl
  split
  · rcases hpd : punyDecode (label.drop 4) with - | d
    · simpa using b1
    · simp only
      split
      · simp [Nat.testBit_lor, testBit_ite, b3, b4, validateLabel_testBit1_false]
      · simpa using b2
  · simp [Nat.testBit_lor, testBit_ite, b3, validateLabel_testBit1_false]

/-- C6: LABEL_TOO_LONG (bit 1) is recorded by ToASCII operations exactly when
the label's ASCII/ACE rendering exceeds 63 bytes and STD3 rules are in force;
ToUnicode operations never record it; a 63-byte rendering under STD3 sets no
error bit 1 while a 64-byte rendering does. -/
theorem labelTooLong_characterization :
    (∀ (options : Nat) (label : List Nat) (e : IDNAErrors),
      ((labelToASCII options label e).errors.testBit 1 = true ↔
        (uts46UseSTD3 options = true ∧ (labelToASCIIImpl options label).1.length > 63))) ∧
    (∀ (options : Nat) (name : List Nat) (e : IDNAErrors),
      ((nameToASCII options name e).errors.testBit 1 = true ↔
        (uts46UseSTD3 options = true ∧
          ∃ l ∈ splitDots name, (labelToASCIIImpl options l).1.length > 63))) ∧
    (∀ (options : Nat) (label : List Nat) (e : IDNAErrors),
      (labelToUnicode options label e).errors.testBit 1 = false) ∧
    (∀ (options : Nat) (name : List Nat) (e : IDNAErrors),
      (nameToUnicode options name e).errors.testBit 1 = false) ∧
    ((labelToASCII UIDNA_USE_STD3_RULES (List.replicate 63 0x61)
        IDNAErrors.init).errors.testBit 1 = false) ∧
    ((labelToASCII UIDNA_USE_STD3_RULES (List.replicate 64 0x61)
        IDNAErrors.init).errors.testBit 1 = true) := by
  have h1 : Nat.testBit UIDNA_ERROR_EMPTY_LABEL 1 = false := by decide
  have h2 : Nat.testBit UIDNA_ERROR_LABEL_HAS_DOT 1 = false := by decide
  have h3 : Nat.testBit UIDNA_ERROR_DOMAIN_NAME_TOO_LONG 1 = false := by decide
  refine ⟨?_, ?_, ?_, ?_, by decide, by decide⟩
  · intro options label e
    show ((IDNAErrors.reset e).errors ||| (labelToASCIIImpl options label).2 |||
      (if label = [] then UIDNA_ERROR_EMPTY_LABEL else 0) |||
      (if label.any isSep then UIDNA_ERROR_LABEL_HAS_DOT else 0)).testBit 1 = true ↔ _
    simp [Nat.testBit_lor, testBit_ite, IDNAErrors.reset, Nat.zero_testBit, h1, h2,
      labelToASCIIImpl_testBit1_iff]
  · intro options name e
    show ((IDNAErrors.reset e).errors |||
      orAll ((splitDots name).map (fun l => (labelToASCIIImpl options l).2)) |||
      (if name = [] ∨ (splitDots name).dropLast.any (fun l => decide (l = []))
        then UIDNA_ERROR_EMPTY_LABEL else 0) |||
      (if uts46UseSTD3 options ∧
          (joinDots (nameToASCIILabels options name)).length > 255
        then UIDNA_ERROR_DOMAIN_NAME_TOO_LONG else 0)).testBit 1 = true ↔ _
    simp only [Nat.testBit_lor, testBit_ite, IDNAErrors.reset, Nat.zero_testBit, h1, h3,
      orAll_testBit, List.any_eq_true, Bool.or_eq_true, Bool.and_eq_true,
      decide_eq_true_eq, Bool.false_eq_true, or_false, false_or, and_false]
    constructor
    · rintro ⟨x, hx, hbit⟩
      obtain ⟨l, hl, rfl⟩ := List.mem_map.mp hx
      obtain ⟨hs, hlen⟩ := (labelToASCIIImpl_testBit1_iff options l).mp hbit
      exact ⟨hs, l, hl, hlen⟩
    · rintro ⟨hs, l, hl, hlen⟩
      exact ⟨_, List.mem_map_of_mem _ hl,
        (labelToASCIIImpl_testBit1_iff options l).mpr ⟨hs, hlen⟩⟩
  · intro options label e
    show ((IDNAErrors.reset e).errors ||| (labelToUnicodeImpl options label).2 |||
      (if label = [] then UIDNA_ERROR_EMPTY_LABEL else 0) |||
      (if label.any isSep then UIDNA_ERROR_LABEL_HAS_DOT else 0)).testBit 1 = false
    simp [Nat.testBit_lor, testBit_ite, IDNAErrors.reset, Nat.zero_testBit, h1, h2,
      labelToUnicodeImpl_testBit1_false]
  · intro options name e
    show ((IDNAErrors.reset e).errors |||
      orAll ((splitDots name).map (fun l => (labelToUnicodeImpl options l).2)) |||
      (if name = [] ∨ (splitDots name).dropLast.any (fun l => decide (l = []))
        then UIDNA_ERROR_EMPTY_LABEL else 0)).testBit 1 = false
    simp [Nat.testBit_lor, testBit_ite, IDNAErrors.reset, Nat.zero_testBit, h1,
      orAll_testBit, List.any_map, List.any_eq_true, Function.comp,
      labelToUnicodeImpl_testBit1_false]

/-! ### Whole-name structure and DOMAIN_NAME_TOO_LONG -/

theorem validateLabel_testBit2_false (options : Nat) (isToA : Bool) (uni rend : List Nat) :
    (validateLabel options isToA uni rend).testBit 2 = false := by
  have a1 : Nat.testBit UIDNA_ERROR_LEADING_HYPHEN 2 = false := by decide
  have a2 : Nat.testBit UIDNA_ERROR_TRAILING_HYPHEN 2 = false := by decide
  have a3 : Nat.testBit UIDNA_ERROR_HYPHEN_3_4 2 = false := by decide
  have a4 : Nat.testBit UIDNA_ERROR_LEADING_COMBINING_MARK 2 = false := by decide
  have a5 : Nat.testBit UIDNA_ERROR_LABEL_TOO_LONG 2 = false := by decide
  have a6 : Nat.testBit UIDNA_ERROR_BIDI 2 = false := by decide
  have a7 : Nat.testBit UIDNA_ERROR_CONTEXTJ 2 = false := by decide
  unfold validateLabel
  simp [Nat.testBit_lor, testBit_ite, a1, a2, a3, a4, a5, a6, a7]

theorem labelToASCIIImpl_testBit2_false (options : Nat) (label : List Nat) :
    (labelToASCIIImpl options label).2.testBit 2 = false := by
  have a0 : Nat.testBit UIDNA_ERROR_DISALLOWED 2 = false := by decide
  rw [labelToASCIIImpl_errs]
  simp [Nat.testBit_lor, testBit_ite, a0, validateLabel_testBit2_false]

theorem nameToASCII_testBit1_iff (options : Nat) (name : List Nat) (e : IDNAErrors) :
    ((nameToASCII options name e).errors.testBit 1 = true ↔
      (uts46UseSTD3 options = true ∧
        ∃ l ∈ splitDots name, (labelToASCIIImpl options l).1.length > 63)) := by
  have h1 : Nat.testBit UIDNA_ERROR_EMPTY_LABEL 1 = false := by decide
  have h3 : Nat.testBit UIDNA_ERROR_DOMAIN_NAME_TOO_LONG 1 = false := by decide
  show ((IDNAErrors.reset e).errors |||
    orAll ((splitDots name).map (fun l => (labelToASCIIImpl options l).2)) |||
    (if name = [] ∨ (splitDots name).dropLast.any (fun l => decide (l = []))
      then UIDNA_ERROR_EMPTY_LABEL else 0) |||
    (if uts46UseSTD3 options ∧
        (joinDots (nameToASCIILabels options name)).length > 255
      then UIDNA_ERROR_DOMAIN_NAME_TOO_LONG else 0)).testBit 1 = true ↔ _
  simp only [Nat.testBit_lor, testBit_ite, IDNAErrors.reset, Nat.zero_testBit, h1, h3,
    orAll_testBit, List.any_eq_true, Bool.or_eq_true, Bool.and_eq_true,
    decide_eq_true_eq, Bool.false_eq_true, or_false, false_or, and_false]
  constructor
  · rintro ⟨x, hx, hbit⟩
    obtain ⟨l, hl, rfl⟩ := List.mem_map.mp hx
    obtain ⟨hs, hlen⟩ := (labelToASCIIImpl_testBit1_iff options l).mp hbit
    exact ⟨hs, l, hl, hlen⟩
  · rintro ⟨hs, l, hl, hlen⟩
    exact ⟨_, List.mem_map_of_mem _ hl,
      (labelToASCIIImpl_testBit1_iff options l).mpr ⟨hs, hlen⟩⟩

set_option maxRecDepth 16384 in
/-- C7: `nameToASCII` splits at all separators, applies the per-label ToASCII
pipeline, rejoins with ASCII dots; DOMAIN_NAME_TOO_LONG (bit 2) is recorded
exactly when STD3 rules are set and the rendered name exceeds 255 bytes; the
per-label length checks are unaffected (bit 1 keeps its per-label
characterization); at a concrete 256-byte rendering both bits fire. -/
theorem nameToASCII_structure :
    (∀ (options : Nat) (name : List Nat) (e : IDNAErrors),
      (nameToASCII options name e).dest =
        joinDots ((splitDots name).map (fun l => (labelToASCIIImpl options l).1))) ∧
    (∀ (options : Nat) (name : List Nat) (e : IDNAErrors),
      ((nameToASCII options name e).errors.testBit 2 = true ↔
        (uts46UseSTD3 options = true ∧ (nameToASCII options name e).dest.length > 255))) ∧
    (∀ (options : Nat) (name : List Nat) (e : IDNAErrors),
      ((nameToASCII options name e).errors.testBit 1 = true ↔
        (uts46UseSTD3 options = true ∧
          ∃ l ∈ splitDots name, (labelToASCIIImpl options l).1.length > 63))) ∧
    ((nameToASCII UIDNA_USE_STD3_RULES
        (List.replicate 63 0x61 ++ 0x2E :: (List.replicate 63 0x61 ++ 0x2E ::
          (List.replicate 63 0x61 ++ 0x2E :: List.replicate 64 0x61)))
        IDNAErrors.init).errors.testBit 2 = true ∧
      (nameToASCII UIDNA_USE_STD3_RULES
        (List.replicate 63 0x61 ++ 0x2E :: (List.replicate 63 0x61 ++ 0x2E ::
          (List.replicate 63 0x61 ++ 0x2E :: List.replicate 64 0x61)))
        IDNAErrors.init).errors.testBit 1 = true) := by
  have h1 : Nat.testBit UIDNA_ERROR_EMPTY_LABEL 2 = false := by decide
  have h2 : Nat.testBit UIDNA_ERROR_DOMAIN_NAME_TOO_LONG 2 = true := by decide
  refine ⟨?_, ?_, nameToASCII_testBit1_iff, by decide, by decide⟩
  · intro options name e
    rfl
  · intro options name e
    show ((IDNAErrors.reset e).errors |||
      orAll ((splitDots name).map (fun l => (labelToASCIIImpl options l).2)) |||
      (if name = [] ∨ (splitDots name).dropLast.any (fun l => decide (l = []))
        then UIDNA_ERROR_EMPTY_LABEL else 0) |||
      (if uts46UseSTD3 options ∧
          (joinDots (nameToASCIILabels options name)).length > 255
        then UIDNA_ERROR_DOMAIN_NAME_TOO_LONG else 0)).testBit 2 = true ↔
      (uts46UseSTD3 options = true ∧
        (joinDots (nameToASCIILabels options name)).length > 255)
    have hor : (orAll ((splitDots name).map
        (fun l => (labelToASCIIImpl options l).2))).testBit 2 = false := by
      rw [orAll_testBit, List.any_eq_false]
      intro x hx
      obtain ⟨l, -, rfl⟩ := List.mem_map.mp hx
      simp [labelToASCIIImpl_testBit2_false]
    simp [Nat.testBit_lor, testBit_ite, IDNAErrors.reset, Nat.zero_testBit, h1, h2, hor]

/-! ### Empty label policy -/

theorem validateLabel_testBit0_false (options : Nat) (isToA : Bool) (uni rend : List Nat) :
    (validateLabel options isToA uni rend).testBit 0 = false := by
  have a1 : Nat.testBit UIDNA_ERROR_LEADING_HYPHEN 0 = false := by decide
  have a2 : Nat.testBit UIDNA_ERROR_TRAILING_HYPHEN 0 = false := by decide
  have a3 : Nat.testBit UIDNA_ERROR_HYPHEN_3_4 0 = false := by decide
  have a4 : Nat.testBit UIDNA_ERROR_LEADING_COMBINING_MARK 0 = false := by decide
  have a5 : Nat.testBit UIDNA_ERROR_LABEL_TOO_LONG 0 = false := by decide
  have a6 : Nat.testBit UIDNA_ERROR_BIDI 0 = false := by decide
  have a7 : Nat.testBit UIDNA_ERROR_CONTEXTJ 0 = false := by decide
  unfold validateLabel
  simp only [Nat.testBit_lor, testBit_ite, a1, a2, a3, a4, a5, a6, a7, Bool.and_false,
    Bool.or_false, Bool.false_or]

theorem labelToASCIIImpl_testBit0_false (options : Nat) (label : List Nat) :
    (labelToASCIIImpl options label).2.testBit 0 = false := by
  have a0 : Nat.testBit UIDNA_ERROR_DISALLOWED 0 = false := by decide
  rw [labelToASCIIImpl_errs]
  simp only [Nat.testBit_lor, testBit_ite, a0, validateLabel_testBit0_false, Bool.and_false,
    Bool.or_false, Bool.false_or]

theorem labelToUnicodeImpl_testBit0_false (options : Nat) (label : List Nat) :
    (labelToUnicodeImpl options label).2.testBit 0 = false := by
  have b1 : Nat.testBit (UIDNA_ERROR_PUNYCODE ||| UIDNA_ERROR_INVALID_ACE_LABEL) 0 = false := by
    decide
  have b2 : Nat.testBit UIDNA_ERROR_INVALID_ACE_LABEL 0 = false := by decide
  have b3 : Nat.testBit UIDNA_ERROR_DISALLOWED 0 = false := by decide
  have b4 : Nat.testBit UIDNA_ERROR_LABEL_HAS_DOT 0 = false := by decide
  unfold labelToUnicodeImpl
  split
  · rcases hpd : punyDecode (label.drop 4) with - | d
    · exact b1
    · simp only
      split
      · simp only [Nat.testBit_lor, testBit_ite, b3, b4, validateLabel_testBit0_false,
          Bool.and_false, Bool.or_false, Bool.false_or]
      · exact b2
  · simp only [Nat.testBit_lor, testBit_ite, b3, validateLabel_testBit0_false,
      Bool.and_false, Bool.or_false, Bool.false_or]

theorem getLast?_map_self {α β : Type} (f : α → β) (l : List α) :
    (l.map f).getLast? = l.getLast?.map f := by
  induction l with
  | nil => rfl
  | cons a r ih =>
    cases r with
    | nil => rfl
    | cons b t => simpa [List.getLast?_cons_cons] using ih

/-- C8: in whole-name operations EMPTY_LABEL (bit 0) is recorded exactly when
the whole name is empty or some non-final label is empty, so a single
trailing empty label never sets it; and a trailing empty label is preserved
as an empty rendered label by both whole-name operations. -/
theorem emptyLabel_policy :
    (∀ (options : Nat) (name : List Nat) (e : IDNAErrors),
      ((nameToASCII options name e).errors.testBit 0 = true ↔
        (name = [] ∨ [] ∈ (splitDots name).dropLast)) ∧
      ((nameToUnicode options name e).errors.testBit 0 = true ↔
        (name = [] ∨ [] ∈ (splitDots name).dropLast))) ∧
    (∀ (options : Nat) (name : List Nat),
      (splitDots name).getLast? = some [] →
        (nameToASCIILabels options name).getLast? = some [] ∧
        (nameToUnicodeLabels options name).getLast? = some []) := by
  have h1 : Nat.testBit UIDNA_ERROR_EMPTY_LABEL 0 = true := by decide
  have h2 : Nat.testBit UIDNA_ERROR_DOMAIN_NAME_TOO_LONG 0 = false := by decide
  constructor
  · intro options name e
    constructor
    · show ((0 : Nat) |||
        orAll ((splitDots name).map (fun l => (labelToASCIIImpl options l).2)) |||
        (if name = [] ∨ (splitDots name).dropLast.any (fun l => decide (l = []))
          then UIDNA_ERROR_EMPTY_LABEL else 0) |||
        (if uts46UseSTD3 options ∧
            (joinDots (nameToASCIILabels options name)).length > 255
          then UIDNA_ERROR_DOMAIN_NAME_TOO_LONG else 0)).testBit 0 = true ↔ _
      have hor : (orAll ((splitDots name).map
          (fun l => (labelToASCIIImpl options l).2))).testBit 0 = false := by
        rw [orAll_testBit, List.any_eq_false]
        intro x hx
        obtain ⟨l, -, rfl⟩ := List.mem_map.mp hx
        rw [labelToASCIIImpl_testBit0_false]
        simp
      simp only [Nat.testBit_lor, testBit_ite, Nat.zero_testBit, h1, h2, hor,
        Bool.and_true, Bool.and_false, Bool.or_false, Bool.false_or, decide_eq_true_eq,
        List.any_eq_true, exists_eq_right]
    · show ((0 : Nat) |||
        orAll ((splitDots name).map (fun l => (labelToUnicodeImpl options l).2)) |||
        (if name = [] ∨ (splitDots name).dropLast.any (fun l => decide (l = []))
          then UIDNA_ERROR_EMPTY_LABEL else 0)).testBit 0 = true ↔ _
      have hor : (orAll ((splitDots name).map
          (fun l => (labelToUnicodeImpl options l).2))).testBit 0 = false := by
        rw [orAll_testBit, List.any_eq_false]
        intro x hx
        obtain ⟨l, -, rfl⟩ := List.mem_map.mp hx
        rw [labelToUnicodeImpl_testBit0_false]
        simp
      simp only [Nat.testBit_lor, testBit_ite, Nat.zero_testBit, h1, hor,
        Bool.and_true, Bool.and_false, Bool.or_false, Bool.false_or, decide_eq_true_eq,
        List.any_eq_true, exists_eq_right]
  · intro options name h
    constructor
    · unfold nameToASCIILabels
      rw [getLast?_map_self, h]
      rfl
    · unfold nameToUnicodeLabels
      rw [getLast?_map_self, h]
      rfl

/-- Witness for C8: the non-final empty label in "a..b" sets EMPTY_LABEL, the
single trailing empty label in "ab." does not and is preserved. -/
theorem emptyLabel_policy_witness :
    (nameToASCII 0 [0x61, 0x2E, 0x2E, 0x62] IDNAErrors.init).errors.testBit 0 = true ∧
    (nameToASCII 0 [0x61, 0x62, 0x2E] IDNAErrors.init).errors.testBit 0 = false ∧
    (nameToASCIILabels 0 [0x61, 0x62, 0x2E]).getLast? = some [] := by
  obtain ⟨hiff, hlast⟩ := emptyLabel_policy
  refine ⟨((hiff 0 [0x61, 0x2E, 0x2E, 0x62] IDNAErrors.init).1).mpr (by decide), ?_,
    (hlast 0 [0x61, 0x62, 0x2E] (by decide)).1⟩
  have hx : ¬ (nameToASCII 0 [0x61, 0x62, 0x2E] IDNAErrors.init).errors.testBit 0 = true := by
    rw [(hiff 0 [0x61, 0x62, 0x2E] IDNAErrors.init).1]
    decide
  exact Bool.eq_false_iff.mpr hx

/-! ### The never-fails contract of ToUnicode -/

theorem forall2_map_self {α β : Type} (f : α → β) (R : β → α → Prop) (ls : List α)
    (h : ∀ x ∈ ls, R (f x) x) : List.Forall₂ R (ls.map f) ls := by
  induction ls with
  | nil => exact List.Forall₂.nil
  | cons a r ih =>
    exact List.Forall₂.cons (h a (by simp)) (ih (fun x hx => h x (by simp [hx])))

theorem labelToUnicodeImpl_form (options : Nat) (label : List Nat) :
    toUnicodeFormOf options (labelToUnicodeImpl options label).1 label := by
  unfold labelToUnicodeImpl toUnicodeFormOf
  by_cases ht : label.take 4 = aceMarker
  · rw [if_pos ht]
    rcases hpd : punyDecode (label.drop 4) with - | d
    · left
      rfl
    · simp only
      by_cases hrt : punyEncode (uts46MapNorm (uts46UseSTD3 options) MapMode.nontrans d) =
          label.drop 4
      · rw [if_pos hrt]
        right; right
        exact ⟨d, rfl, rfl⟩
      · rw [if_neg hrt]
        left
        rfl
  · rw [if_neg ht]
    right; left
    rfl

/-- C1: ToUnicode never fails — for every finite input the destination is
always populated with the input itself, a mapped/normalized form of it, or
the mapped/normalized form of its ACE decoding, whatever the error bits; and
`nameToUnicode` always produces the dot-join of such per-label outputs, one
for each label of the input. -/
theorem toUnicode_neverFails :
    (∀ (options : Nat) (label : List Nat) (e : IDNAErrors),
      toUnicodeFormOf options (labelToUnicode options label e).dest label) ∧
    (∀ (options : Nat) (name : List Nat) (e : IDNAErrors),
      (nameToUnicode options name e).dest = joinDots (nameToUnicodeLabels options name) ∧
      List.Forall₂ (toUnicodeFormOf options) (nameToUnicodeLabels options name)
        (splitDots name)) := by
  constructor
  · intro options label e
    exact labelToUnicodeImpl_form options label
  · intro options name e
    refine ⟨rfl, ?_⟩
    exact forall2_map_self _ _ _ (fun l _ => labelToUnicodeImpl_form options l)

/-! ### Round-trip through ToASCII and back -/

/-- C3 counterexample: the round-trip property fails as stated.  With default
(transitional) options the label "faß" converts to "fass" with no errors, but
ToUnicode("fass") = "fass" is not normalization-equivalent to
ToUnicode("faß") = "faß".  It fails even with nontransitional processing:
"xn--IP0" (uppercase punycode body) maps error-free to the genuine ACE label
"xn--ip0", whose ToUnicode is the decoded character U+00DF, while ToUnicode
of the original "xn--IP0" falls back to the original text. -/
theorem roundTrip_counterexample :
    ((labelToASCII 0 [0x66, 0x61, 0xDF] IDNAErrors.init).errors = 0 ∧
      ¬ normEquiv
        (labelToUnicode 0 (labelToASCII 0 [0x66, 0x61, 0xDF] IDNAErrors.init).dest
          IDNAErrors.init).dest
        (labelToUnicode 0 [0x66, 0x61, 0xDF] IDNAErrors.init).dest) ∧
    ((labelToASCII 0x10 [0x78, 0x6E, 0x2D, 0x2D, 0x49, 0x50, 0x30]
        IDNAErrors.init).errors = 0 ∧
      ¬ normEquiv
        (labelToUnicode 0x10
          (labelToASCII 0x10 [0x78, 0x6E, 0x2D, 0x2D, 0x49, 0x50, 0x30]
            IDNAErrors.init).dest IDNAErrors.init).dest
        (labelToUnicode 0x10 [0x78, 0x6E, 0x2D, 0x2D, 0x49, 0x50, 0x30]
          IDNAErrors.init).dest) := by
  refine ⟨⟨by decide, ?_⟩, ⟨by decide, ?_⟩⟩ <;>
    · intro h
      unfold normEquiv at h
      revert h
      decide

/-- C3 amended: for every label that is a fixed point of the mapping stage
(each code point maps to itself under the ToASCII mapping mode) and of
normalization, if `labelToASCII` records no errors then applying
`labelToUnicode` to the ToASCII result gives exactly the same destination as
applying `labelToUnicode` to the label itself — in particular the two are
Unicode-normalization-equivalent. -/
theorem roundTrip_fixedPoint (options : Nat) (label : List Nat) (e1 e2 e3 : IDNAErrors)
    (hfix : ∀ c ∈ label,
      mapCharStr (uts46UseSTD3 options) (toASCIIMapMode options) c = [c])
    (hnorm : nfcNormalize label = label)
    (herr : (labelToASCII options label e1).errors = 0) :
    (labelToUnicode options (labelToASCII options label e1).dest e2).dest =
      (labelToUnicode options label e3).dest ∧
    normEquiv (labelToUnicode options (labelToASCII options label e1).dest e2).dest
      (labelToUnicode options label e3).dest := by
  clear herr
  have hm1 : uts46MapNorm (uts46UseSTD3 options) (toASCIIMapMode options) label = label := by
    unfold uts46MapNorm
    rw [mapOut_fixed _ _ _ hfix, hnorm]
  have hfixN : ∀ c ∈ label, mapCharStr (uts46UseSTD3 options) MapMode.nontrans c = [c] :=
    fun c hc => mapCharStr_nontrans_of_fixed _ _ c (hfix c hc)
  have hmN : uts46MapNorm (uts46UseSTD3 options) MapMode.nontrans label = label := by
    unfold uts46MapNorm
    rw [mapOut_fixed _ _ _ hfixN, hnorm]
  suffices hdest : (labelToUnicode options (labelToASCII options label e1).dest e2).dest =
      (labelToUnicode options label e3).dest by
    exact ⟨hdest, by unfold normEquiv; rw [hdest]⟩
  by_cases hall : label.all (fun c => decide (c < 0x80)) = true
  · have hd : (labelToASCII options label e1).dest = label := by
      show (labelToASCIIImpl options label).1 = label
      rw [labelToASCIIImpl_dest, hm1, if_pos hall]
    rw [hd]
    rfl
  · have hd : (labelToASCII options label e1).dest = aceMarker ++ punyEncode label := by
      show (labelToASCIIImpl options label).1 = _
      rw [labelToASCIIImpl_dest, hm1, if_neg hall]
    have hLHS : (labelToUnicode options (aceMarker ++ punyEncode label) e2).dest = label := by
      show (labelToUnicodeImpl options (aceMarker ++ punyEncode label)).1 = label
      unfold labelToUnicodeImpl
      rw [if_pos (aceMarker_take _), aceMarker_drop]
      simp only [punyDecode_punyEncode, hmN, if_pos rfl]
      simp
    have hRHS : (labelToUnicode options label e3).dest = label := by
      show (labelToUnicodeImpl options label).1 = label
      by_cases ht : label.take 4 = aceMarker
      · obtain ⟨c, hc, hcge⟩ : ∃ c ∈ label, ¬ c < 0x80 := by
          by_contra hno
          push_neg at hno
          exact hall (by simpa [List.all_eq_true] using hno)
        have hcdrop : c ∈ label.drop 4 := by
          have := List.take_append_drop 4 label
          rcases List.mem_append.mp (by rw [this]; exact hc) with h1 | h1
          · rw [ht] at h1
            exact absurd (aceMarker_mem_props c h1).1 hcge
          · exact h1
        have hpd : punyDecode (label.drop 4) = none := by
          rcases hq : punyDecode (label.drop 4) with - | d
          · rfl
          · exfalso
            have := pdAux_mem_of_some (label.drop 4) 0 d hq c hcdrop
            omega
        unfold labelToUnicodeImpl
        rw [if_pos ht]
        simp only [hpd]
      · unfold labelToUnicodeImpl
        rw [if_neg ht]
        exact hmN
    rw [hd, hLHS, hRHS]

/-- Witness for the amended C3 at the concrete fixed-point label "ab". -/
theorem roundTrip_fixedPoint_witness :
    (labelToASCII 0 [0x61, 0x62] IDNAErrors.init).errors = 0 ∧
    (labelToUnicode 0 (labelToASCII 0 [0x61, 0x62] IDNAErrors.init).dest
        IDNAErrors.init).dest = (labelToUnicode 0 [0x61, 0x62] IDNAErrors.init).dest ∧
    normEquiv (labelToUnicode 0 (labelToASCII 0 [0x61, 0x62] IDNAErrors.init).dest
        IDNAErrors.init).dest (labelToUnicode 0 [0x61, 0x62] IDNAErrors.init).dest := by
  obtain ⟨h1, h2⟩ := roundTrip_fixedPoint 0 [0x61, 0x62] IDNAErrors.init IDNAErrors.init
    IDNAErrors.init (by decide) (by decide) (by decide)
  exact ⟨by decide, h1, h2⟩
